import Mathlib

/-!
Verification of the accessibility-tree extraction engine, the dual-backend
coordinator, the plugin-catalog parser and the MIDI message builders of the
Logic Pro MCP server, as a shallow embedding of the Swift helper
(swift-helper/Sources/LogicAccessibility/main.swift), the TypeScript bridges
(src/bridges/accessibility.ts, src/bridges/midi-bridge.ts) and the plugin
tool file (parseAuvalOutput).

Strings read from the accessibility tree are manipulated through lists of
characters; every definition is executable and kernel-reducible so that
concrete scenarios evaluate by decide.
-/

/- ===== Character and string utilities ===== -/

/-- ASCII whitespace, the fragment of the Swift and JavaScript whitespace
classes exercised by the labels this program reads. -/
def isWsChar (c : Char) : Bool :=
  c = ' ' || c = '\t' || c = '\n' || c = '\r' || c = '\x0b' || c = '\x0c'

/-- Leading- and trailing-whitespace trim, modelling Swift
trimmingCharacters(in: .whitespaces) and JS String.prototype.trim. -/
def trimWs (cs : List Char) : List Char :=
  ((cs.dropWhile isWsChar).reverse.dropWhile isWsChar).reverse

/-- Character-wise lower casing of a string, modelling Swift lowercased()
on the ASCII labels this program compares. -/
def lowerChars (s : String) : List Char :=
  s.toList.map Char.toLower

/-- Whether the first list is a leading segment of the second, modelling
Swift hasPrefix and JS startsWith. -/
def startsWithChars : List Char → List Char → Bool
  | [], _ => true
  | _ :: _, [] => false
  | a :: as, b :: bs => a = b && startsWithChars as bs

/-- Whether the first list occurs contiguously inside the second. -/
def containsChars (sub : List Char) : List Char → Bool
  | [] => sub.isEmpty
  | c :: cs => startsWithChars sub (c :: cs) || containsChars sub cs

/-- Substring test, modelling Swift String.contains(_:). -/
def containsSub (sub s : String) : Bool :=
  containsChars sub.toList s.toList

/-- Accumulator for the Swift-style split that omits empty subsequences:
the running current piece is the first argument. -/
def splitTokensAux (cur : List Char) : List Char → List (List Char)
  | [] => if cur.isEmpty then [] else [cur]
  | c :: cs =>
    if c = ' ' then
      if cur.isEmpty then splitTokensAux [] cs
      else cur :: splitTokensAux [] cs
    else splitTokensAux (cur ++ [c]) cs

/-- Swift split(separator: " ") with the default omittingEmptySubsequences
and no split bound. -/
def splitTokens (cs : List Char) : List (List Char) :=
  splitTokensAux [] cs

/-- Swift split(separator:maxSplits:) with omittingEmptySubsequences: after
the bounded number of nonempty pieces has been produced the remainder is
appended unsplit (when nonempty), and runs of separators cost no splits. -/
def swiftSplitMaxAux (sep : Char) (maxSplits : Nat) (cur : List Char) : List Char → List (List Char)
  | [] => if cur.isEmpty then [] else [cur]
  | c :: cs =>
    if c = sep then
      if cur.isEmpty then swiftSplitMaxAux sep maxSplits [] cs
      else if maxSplits ≤ 1 then cur :: (if cs.isEmpty then [] else [cs])
      else swiftSplitMaxAux sep (maxSplits - 1) [] cs |>.cons cur
    else swiftSplitMaxAux sep maxSplits (cur ++ [c]) cs

/-- Entry point for the bounded Swift split. -/
def swiftSplitMax (sep : Char) (maxSplits : Nat) (cs : List Char) : List (List Char) :=
  swiftSplitMaxAux sep maxSplits [] cs

/-- JS String.prototype.split on a one-character separator: empty pieces are
kept. -/
def jsSplitAux (sep : Char) (cur : List Char) : List Char → List (List Char)
  | [] => [cur]
  | c :: cs => if c = sep then cur :: jsSplitAux sep [] cs else jsSplitAux sep (cur ++ [c]) cs

/-- JS split keeping empty pieces. -/
def jsSplit (sep : Char) (cs : List Char) : List (List Char) :=
  jsSplitAux sep [] cs

/-- Value of a decimal digit character. -/
def digitVal (c : Char) : Option Nat :=
  if c.isDigit then some (c.toNat - 48) else none

/-- Value of a digit sequence, folded left onto an accumulator; fails on the
first non-digit. -/
def parseDigitsAux (acc : Nat) : List Char → Option Nat
  | [] => some acc
  | c :: cs =>
    match digitVal c with
    | some d => parseDigitsAux (10 * acc + d) cs
    | none => none

/-- Unsigned all-digits parse of a nonempty token. -/
def parseNatToken (cs : List Char) : Option Nat :=
  if cs.isEmpty then none else parseDigitsAux 0 cs

/-- Swift Int(String) on the decimal fragment: an optional sign followed by
digits only, with nothing else accepted; values outside the 64-bit Int
range (above 2^63 - 1, or below -2^63) yield nil, as on the platforms the
helper builds for. -/
def swiftParseInt (cs : List Char) : Option Int :=
  match cs with
  | [] => none
  | c :: rest =>
    if c = '-' then
      (parseNatToken rest).bind (fun m =>
        if m ≤ 9223372036854775808 then some (-(m : Int)) else none)
    else if c = '+' then
      (parseNatToken rest).bind (fun m =>
        if m ≤ 9223372036854775807 then some ((m : Int)) else none)
    else
      (parseNatToken (c :: rest)).bind (fun m =>
        if m ≤ 9223372036854775807 then some ((m : Int)) else none)

/-- Maximal decimal-digit head of the input; none when the head is not a
digit. -/
def jsParseIntCore (cs : List Char) : Option Nat :=
  let ds := cs.takeWhile Char.isDigit
  if ds.isEmpty then none else parseDigitsAux 0 ds

/-- Rounding of a natural number to the value of the nearest IEEE
double (ties to even): exact below 2^53, a 53-bit significand scaled by a
power of two above it; none models the overflow to Infinity at the 2^1024
boundary (which, like NaN, the JXA pipeline serializes to null). -/
def roundNatToDouble (n : Nat) : Option Nat :=
  if n < 2 ^ 53 then some n
  else
    let k := n.log2 - 52
    let q := n / 2 ^ k
    let r := n % 2 ^ k
    let half := 2 ^ (k - 1)
    let q2 := if half < r || (r = half && q % 2 = 1) then q + 1 else q
    if q2 * 2 ^ k < 2 ^ 1024 then some (q2 * 2 ^ k) else none

/-- JS parseInt on the decimal fragment: skip leading whitespace, read an
optional sign, then the maximal digit head, ignoring anything after it;
the produced number is the nearest IEEE double of the digit value, so
exactness is lost beyond 2^53; none models the NaN result and the
non-integer Infinity overflow. (The 0x radix autodetection is outside the
inputs this program feeds it.) -/
def jsParseInt (cs : List Char) : Option Int :=
  match cs.dropWhile isWsChar with
  | [] => none
  | c :: rest =>
    if c = '-' then
      (jsParseIntCore rest).bind (fun m => (roundNatToDouble m).map (fun m2 => -(m2 : Int)))
    else if c = '+' then
      (jsParseIntCore rest).bind (fun m => (roundNatToDouble m).map (fun m2 => (m2 : Int)))
    else
      (jsParseIntCore (c :: rest)).bind (fun m => (roundNatToDouble m).map (fun m2 => (m2 : Int)))

/-- Chars strictly after the first occurrence of q, modelling
Swift range(of:) and JS indexOf followed by substring. -/
def breakAtChar (q : Char) : List Char → Option (List Char)
  | [] => none
  | c :: cs => if c = q then some cs else breakAtChar q cs

/-- Prefix strictly before the first occurrence of q; some only when q
occurs. -/
def takeBeforeChar (q : Char) : List Char → Option (List Char)
  | [] => none
  | c :: cs => if c = q then some [] else (takeBeforeChar q cs).map (fun p => c :: p)

/-- Index of the last occurrence of q, modelling JS lastIndexOf. -/
def lastIndexOfChar (q : Char) : List Char → Option Nat
  | [] => none
  | c :: cs =>
    match lastIndexOfChar q cs with
    | some i => some (i + 1)
    | none => if c = q then some 0 else none

/- ===== The accessibility element model ===== -/

mutual
/-- Accessibility element as read by both backends: the four fallible
attribute reads (role, title, description, value) plus the ordered children
array. Absent attributes are none, mirroring the nil results of
AXUIElementCopyAttributeValue and the thrown reads of the JXA bridge. -/
inductive AXElement : Type where
  | mk (role title description value : Option String) (children : AXForest)
deriving DecidableEq, Repr

/-- Ordered child sequence of accessibility elements. -/
inductive AXForest : Type where
  | nil
  | cons (e : AXElement) (rest : AXForest)
deriving DecidableEq, Repr
end

def AXElement.role : AXElement → Option String
  | .mk r _ _ _ _ => r

def AXElement.title : AXElement → Option String
  | .mk _ t _ _ _ => t

def AXElement.descr : AXElement → Option String
  | .mk _ _ d _ _ => d

def AXElement.value : AXElement → Option String
  | .mk _ _ _ v _ => v

def AXElement.children : AXElement → AXForest
  | .mk _ _ _ _ cs => cs

/- ===== Swift helper: pattern matchers ===== -/

/-- Swift isTrackDescription: the description starts with a track-marker
locale prefixed token ("Spur " or "Track "). -/
def isTrackDescriptionCore (desc : List Char) : Bool :=
  startsWithChars "Spur ".toList desc || startsWithChars "Track ".toList desc

/-- Swift extractTrackName: take what follows the first German low quote and
strip closing quote characters, else take the interior of the first straight
quote pair, else fall back to the third whitespace-bounded piece, else the
description itself. -/
def extractTrackNameCore (desc : List Char) : List Char :=
  match breakAtChar '„' desc with
  | some after =>
    trimWs (after.filter (fun c => !(c = '“' || c = '”' || c = '"')))
  | none =>
    match breakAtChar '"' desc with
    | some after =>
      let name :=
        match takeBeforeChar '"' after with
        | some before => before
        | none => after
      trimWs name
    | none =>
      match swiftSplitMax ' ' 2 desc with
      | _ :: _ :: third :: _ => third
      | _ => desc

/-- Swift extractTrackNumber: the second whitespace-separated token parsed
as an integer, -1 otherwise. -/
def extractTrackNumberCore (desc : List Char) : Int :=
  match splitTokens desc with
  | _ :: second :: _ =>
    match swiftParseInt second with
    | some n => n
    | none => -1
  | _ => -1

/- ===== Swift helper: extraction pipeline ===== -/

/-- TrackInfo record produced by the Swift helper list-tracks command. -/
structure TrackInfo where
  index : Nat
  trackNumber : Int
  name : String
  muted : Bool
  solo : Bool
  recordEnabled : Bool
  volume : Int
  plugins : List String
deriving DecidableEq, Repr

/-- Mute/solo/record/volume accumulator of extractTrackMeta. -/
structure TrackMeta where
  muted : Bool
  solo : Bool
  recordEnabled : Bool
  volume : Int
deriving DecidableEq, Repr

/-- Swift extractTrackMeta: fold over the direct children, later children
overriding earlier ones for the same key. -/
def extractTrackMeta : AXForest → TrackMeta → TrackMeta
  | .nil, m => m
  | .cons (.mk r _ d v _) rest, m =>
    let role := r.getD ""
    let desc := d.getD ""
    let value := v.getD ""
    let m1 :=
      if role == "AXCheckBox" then
        if desc == "Mute" then { m with muted := value == "1" }
        else if desc == "Solo" then { m with solo := value == "1" }
        else if containsSub "Aufnahme" desc || containsSub "Record" desc then
          { m with recordEnabled := value == "1" }
        else m
      else if role == "AXSlider" && desc == "Volume" then
        { m with volume := (swiftParseInt value.toList).getD 0 }
      else m
    extractTrackMeta rest m1

/-- Swift findPluginNames: unbounded pre-order scan collecting titles of
buttons whose title is nonempty and is not one of the transport labels. -/
def findPluginNames : AXForest → List String
  | .nil => []
  | .cons (.mk r t _ _ cs) rest =>
    let role := r.getD ""
    let title := t.getD ""
    let here :=
      if role == "AXButton" && title ≠ "" && title ≠ "M" && title ≠ "S" && title ≠ "R" then
        [title]
      else []
    here ++ findPluginNames cs ++ findPluginNames rest

/-- Track record assembled by collectTrackElements for one matched row. -/
def mkTrackInfo (idx : Nat) (desc : List Char) (children : AXForest) : TrackInfo :=
  let meta := extractTrackMeta children ⟨false, false, false, 0⟩
  { index := idx
    trackNumber := extractTrackNumberCore desc
    name := (extractTrackNameCore desc).asString
    muted := meta.muted
    solo := meta.solo
    recordEnabled := meta.recordEnabled
    volume := meta.volume
    plugins := findPluginNames children }

/-- Swift collectTrackElements: depth-guarded pre-order walk appending a
TrackInfo for every AXLayoutItem whose description matches the track
pattern; the index is the running length of the accumulator. -/
def collectTrackElements : AXForest → List TrackInfo → Nat → Nat → List TrackInfo
  | .nil, tracks, _, _ => tracks
  | .cons (.mk r _t d _v cs) rest, tracks, depth, maxDepth =>
    if depth < maxDepth then
      let role := r.getD ""
      let desc := d.getD ""
      let tracks1 :=
        if role == "AXLayoutItem" && isTrackDescriptionCore desc.toList then
          tracks ++ [mkTrackInfo tracks.length desc.toList cs]
        else tracks
      let tracks2 := collectTrackElements cs tracks1 (depth + 1) maxDepth
      collectTrackElements rest tracks2 depth maxDepth
    else tracks

/-- Swift extractTracks: bounded collection from the children of the track
container group. -/
def extractTracks (spurenGroup : AXElement) : List TrackInfo :=
  collectTrackElements spurenGroup.children [] 0 12

/-- Direct-children scan of findElementByDescription. -/
def findDirectChild : AXForest → String → Option AXElement
  | .nil, _ => none
  | .cons (.mk r t d v cs) rest, description =>
    if d.getD "" == description then some (.mk r t d v cs)
    else findDirectChild rest description

mutual
/-- Swift findElementByDescription: direct children first, then recursive
descent into each child while the depth bound allows. -/
def findElementByDescription (root : AXElement) (description : String) (maxDepth : Nat) : Option AXElement :=
  match root with
  | .mk _ _ _ _ children =>
    match findDirectChild children description with
    | some c => some c
    | none =>
      if maxDepth > 0 then findInSubtrees children description (maxDepth - 1)
      else none

/-- Recursive-descent half of findElementByDescription. -/
def findInSubtrees (children : AXForest) (description : String) (maxDepth : Nat) : Option AXElement :=
  match children with
  | .nil => none
  | .cons c rest =>
    match findElementByDescription c description maxDepth with
    | some found => some found
    | none => findInSubtrees rest description maxDepth
end

/-- Swift listTracks: locate the Spuren group, fall back to the English
Tracks group, and return the empty sequence when neither is found. -/
def swiftListTracks (mainWindow : AXElement) : List TrackInfo :=
  match findElementByDescription mainWindow "Spuren" 4 with
  | some spurenGroup => extractTracks spurenGroup
  | none =>
    match findElementByDescription mainWindow "Tracks" 4 with
    | some tracksGroup => extractTracks tracksGroup
    | none => []

/-- PluginParameter record of the get-params command. -/
structure PluginParameter where
  name : String
  value : String
  role : String
deriving DecidableEq, Repr

/-- Swift findParameters: depth-guarded pre-order walk appending every
slider, text field or pop-up button that carries a nonempty name. -/
def findParameters : AXForest → List PluginParameter → Nat → Nat → List PluginParameter
  | .nil, params, _, _ => params
  | .cons (.mk r t d v cs) rest, params, depth, maxDepth =>
    if depth < maxDepth then
      let role := r.getD ""
      let title := t.getD ""
      let desc := d.getD ""
      let value := v.getD ""
      let params1 :=
        if role == "AXSlider" || role == "AXTextField" || role == "AXPopUpButton" then
          let name := if desc ≠ "" then desc else title
          if name ≠ "" then params ++ [⟨name, value, role⟩] else params
        else params
      let params2 := findParameters cs params1 (depth + 1) maxDepth
      findParameters rest params2 depth maxDepth
    else params

/-- Swift getPluginParameters: fold findParameters over every top-level
window at bound 8. -/
def getPluginParametersHelper : AXForest → List PluginParameter → List PluginParameter
  | .nil, params => params
  | .cons (.mk _ _ _ _ cs) rest, params =>
    getPluginParametersHelper rest (findParameters cs params 0 8)

/- ===== Swift helper: the write-parameter operation ===== -/

/-- Control name used by findAndSetParameter: description when nonempty,
else title. -/
def axControlName (_r t d : Option String) : String :=
  let desc := d.getD ""
  if desc ≠ "" then desc else t.getD ""

/-- The control-name match of findAndSetParameter, Swift
name.lowercased() == paramName.lowercased(). -/
def matchesControlName (label target : String) : Bool :=
  lowerChars label == lowerChars target

/-- Exponent tail of a decimal float literal. -/
def floatSignedDigits (cs : List Char) : Bool :=
  let cs1 :=
    match cs with
    | '-' :: r => r
    | '+' :: r => r
    | _ => cs
  !cs1.isEmpty && cs1.all Char.isDigit

/-- Optional exponent part of a decimal float literal. -/
def floatExpPart : List Char → Bool
  | [] => true
  | 'e' :: r => floatSignedDigits r
  | 'E' :: r => floatSignedDigits r
  | _ => false

/-- Whether Swift Float(String) succeeds, on the decimal fragment the
helper feeds it: optional sign, nonempty integer digits, optional fraction
with nonempty digits, optional exponent; nothing else. -/
def swiftFloatParses (s : String) : Bool :=
  let cs :=
    match s.toList with
    | '-' :: r => r
    | '+' :: r => r
    | cs => cs
  let ds := cs.takeWhile Char.isDigit
  let r1 := cs.drop ds.length
  if ds.isEmpty then false
  else
    match r1 with
    | [] => true
    | '.' :: r2 =>
      let fs := r2.takeWhile Char.isDigit
      let r3 := r2.drop fs.length
      !fs.isEmpty && floatExpPart r3
    | r => floatExpPart r

/-- Swift findAndSetParameter as a state-passing walk: the returned forest
is the live tree after the call, the Bool reports whether a control was
written. AXUIElementSetAttributeValue is modelled as storing the written
text into the value attribute. -/
def findAndSetParameter : AXForest → String → String → Nat → Nat → Bool × AXForest
  | .nil, _, _, _, _ => (false, .nil)
  | .cons (.mk r t d v cs) rest, paramName, value, depth, maxDepth =>
    if depth < maxDepth then
      let role := r.getD ""
      let name := axControlName r t d
      if matchesControlName name paramName && role == "AXSlider" && swiftFloatParses value then
        (true, .cons (.mk r t d (some value) cs) rest)
      else if matchesControlName name paramName && role == "AXTextField" then
        (true, .cons (.mk r t d (some value) cs) rest)
      else
        let res := findAndSetParameter cs paramName value (depth + 1) maxDepth
        if res.1 then (true, .cons (.mk r t d v res.2) rest)
        else
          let resR := findAndSetParameter rest paramName value depth maxDepth
          (resR.1, .cons (.mk r t d v res.2) resR.2)
    else (false, .cons (.mk r t d v cs) rest)

/-- Outcome of the Swift set-param command: the success line goes to
stdout, the not-found diagnostic goes to stderr. -/
inductive SetParamResult : Type where
  | success
  | notFound (paramName : String)
deriving DecidableEq, Repr

/-- Window loop of Swift setPluginParameter at bound 8. -/
def setParamWindows : AXForest → String → String → Bool × AXForest
  | .nil, _, _ => (false, .nil)
  | .cons (.mk r t d v cs) rest, paramName, value =>
    let res := findAndSetParameter cs paramName value 0 8
    if res.1 then (true, .cons (.mk r t d v res.2) rest)
    else
      let resR := setParamWindows rest paramName value
      (resR.1, .cons (.mk r t d v res.2) resR.2)

/-- Swift setPluginParameter over the top-level windows. -/
def swiftSetPluginParameter (windows : AXForest) (paramName value : String) : SetParamResult × AXForest :=
  let res := setParamWindows windows paramName value
  (if res.1 then .success else .notFound paramName, res.2)

/-- Stdout of the set-param command: the helper prints the success line on
success and nothing on the not-found path (whose diagnostic goes to
stderr, the process still exiting 0). -/
def setParamStdout : SetParamResult → String
  | .success => "Parameter set successfully"
  | .notFound _ => ""

/-- Whether the set-param command emitted the not-found diagnostic on
stderr. -/
def setParamStderrHasNotFound : SetParamResult → Bool
  | .success => false
  | .notFound _ => true

/-- The TS bridge setPluginParameter: execFile resolves whenever the
helper exits 0 (both set-param paths do), so the bridge yields the trimmed
helper stdout; Except.error would arise only from spawn failure or
timeout, absent in this model. -/
def tsSetPluginParameter (windows : AXForest) (paramName value : String) : Except String String :=
  .ok (setParamStdout (swiftSetPluginParameter windows paramName value).1)

/-- Result shape of one MCP tool call. -/
structure ToolResult where
  text : String
  isError : Bool
deriving DecidableEq, Repr

/-- The plugin_set_parameter tool handler around the TS bridge. -/
def pluginSetParameterTool (windows : AXForest) (paramName value : String) : ToolResult :=
  match tsSetPluginParameter windows paramName value with
  | .ok result =>
    { text := "Parameter \"" ++ paramName ++ "\" set to \"" ++ value ++ "\". " ++ result
      isError := false }
  | .error msg =>
    { text := "Failed to set parameter: " ++ msg, isError := true }

/- ===== JXA fallback backend (embedded script of listTracksJXA) ===== -/

/-- Track record built by the JXA script; trackNumber is none when the JS
parseInt produced NaN. -/
structure JxaTrack where
  index : Nat
  trackNumber : Option Int
  name : String
  muted : Bool
  solo : Bool
  recordEnabled : Bool
  volume : Int
  plugins : List String
deriving DecidableEq, Repr

/-- JXA name extraction: after the first German low quote, strip closing
quote characters and trim; else the raw interior up to the last straight
quote, without trimming; else the description itself. -/
def jxaParseTrackNameCore (desc : List Char) : List Char :=
  match breakAtChar '„' desc with
  | some after =>
    trimWs (after.filter (fun c => !(c = '“' || c = '”' || c = '"')))
  | none =>
    match breakAtChar '"' desc with
    | some after =>
      match lastIndexOfChar '"' after with
      | some i => after.take i
      | none => after
    | none => desc

/-- JXA number extraction: parts = desc.split(" "), then parseInt(parts[1])
when there are at least two parts, else -1. -/
def jxaParseTrackNumberCore (desc : List Char) : Option Int :=
  match jsSplit ' ' desc with
  | _ :: second :: _ => jsParseInt second
  | _ => some (-1)

/-- JS loose comparison value == 1 for attribute values modelled as numeric
strings: the trimmed text denotes the integer 1. -/
def jsLooseEqOne : Option String → Bool
  | some s => swiftParseInt (trimWs s.toList) == some 1
  | none => false

/-- Whether the JXA record-enable test fires: cd && (cd.includes("Aufnahme")
|| cd.includes("Record")). -/
def jxaDescHasRecord : Option String → Bool
  | some s => s ≠ "" && (containsSub "Aufnahme" s || containsSub "Record" s)
  | none => false

/-- Meta accumulator of the JXA child scan. -/
structure JxaMeta where
  muted : Bool
  solo : Bool
  recordEnabled : Bool
  volume : Int
deriving DecidableEq, Repr

/-- JXA mute/solo/record/volume scan over the direct children. -/
def jxaTrackMeta : AXForest → JxaMeta → JxaMeta
  | .nil, m => m
  | .cons (.mk r _ d v _) rest, m =>
    let m1 :=
      if r.getD "" == "AXCheckBox" then
        if d == some "Mute" then { m with muted := jsLooseEqOne v }
        else if d == some "Solo" then { m with solo := jsLooseEqOne v }
        else if jxaDescHasRecord d then { m with recordEnabled := jsLooseEqOne v }
        else m
      else if r.getD "" == "AXSlider" && d == some "Volume" then
        { m with volume := (jsParseInt ((v.getD "").toList)).getD 0 }
      else m
    jxaTrackMeta rest m1

/-- Whether the JXA walk treats an element as a track row: AXLayoutItem
role with a truthy description that starts with a track marker. -/
def jxaIsTrackElem : AXElement → Bool
  | .mk r _ d _ _ =>
    r == some "AXLayoutItem" &&
    (match d with
     | some s =>
       s ≠ "" && (startsWithChars "Spur ".toList s.toList ||
                  startsWithChars "Track ".toList s.toList)
     | none => false)

/-- JXA track record for one matched row: the script always pushes
plugins: []. -/
def jxaMkTrack (idx : Nat) (e : AXElement) : JxaTrack :=
  match e with
  | .mk _ _ d _ cs =>
    let desc := (d.getD "").toList
    let meta := jxaTrackMeta cs ⟨false, false, false, 0⟩
    { index := idx
      trackNumber := jxaParseTrackNumberCore desc
      name := (jxaParseTrackNameCore desc).asString
      muted := meta.muted
      solo := meta.solo
      recordEnabled := meta.recordEnabled
      volume := meta.volume
      plugins := [] }

/-- Child loop of the JXA findTracks walk: the guard depth > 12 belongs to
the recursive call on each child, so it is checked here before descending. -/
def jxaScanChildren : AXForest → Nat → List JxaTrack → List JxaTrack
  | .nil, _, ts => ts
  | .cons (.mk r t d v cs) rest, depth, ts =>
    let e := AXElement.mk r t d v cs
    let ts1 := if jxaIsTrackElem e then ts ++ [jxaMkTrack ts.length e] else ts
    let ts2 := if depth + 1 > 12 then ts1 else jxaScanChildren cs (depth + 1) ts1
    jxaScanChildren rest depth ts2

/-- JXA findTracks on one element. -/
def jxaFindTracks (el : AXElement) (depth : Nat) (ts : List JxaTrack) : List JxaTrack :=
  if depth > 12 then ts else jxaScanChildren el.children depth ts

/- ===== Dual-backend coordinator (TS listTracks) ===== -/

/-- Error text the TS coordinator wraps around a fallback failure. -/
def fallbackErrorText (msg : String) : String :=
  "Could not list tracks. Ensure Logic Pro is open and Accessibility is granted. Details: " ++ msg

/-- The fallback leg of the coordinator: a successful JXA run is returned
as is, a failing one is rethrown with the descriptive wrapper. -/
def runListTracksFallback : Except String (List TrackInfo) → Except String (List TrackInfo)
  | .ok tracks => .ok tracks
  | .error msg => .error (fallbackErrorText msg)

/-- TS listTracks: the privileged helper outcome is none when the helper
invocation threw, timed out or produced unparseable JSON, some tracks when
it parsed; a nonempty parse returns immediately, otherwise the fallback leg
runs. -/
def listTracksCoordinator (priv : Option (List TrackInfo))
    (fallback : Except String (List TrackInfo)) : Except String (List TrackInfo) :=
  match priv with
  | some tracks =>
    if tracks.length > 0 then .ok tracks else runListTracksFallback fallback
  | none => runListTracksFallback fallback

/- ===== Plugin catalog parser (parseAuvalOutput) ===== -/

/-- One parsed auval -l record. -/
structure AudioUnit where
  type : String
  subtype : String
  manufacturer : String
  name : String
deriving DecidableEq, Repr

/-- JS regex word character. -/
def isWordChar (c : Char) : Bool :=
  c.isAlphanum || c = '_'

/-- Characters the JS dot matches: anything but a line terminator. -/
def isDotChar (c : Char) : Bool :=
  c ≠ '\n' && c ≠ '\r'

/-- Exactly four word characters, as the regex group (\w{4}); the group is
followed by \s+, so a fifth word character makes the following whitespace
match fail rather than this one. -/
def take4Word (cs : List Char) : Option (List Char × List Char) :=
  match cs with
  | c1 :: c2 :: c3 :: c4 :: rest =>
    if isWordChar c1 && isWordChar c2 && isWordChar c3 && isWordChar c4 then
      some ([c1, c2, c3, c4], rest)
    else none
  | _ => none

/-- Whitespace run of the regex: at least one whitespace character,
consumed maximally (the following token never starts with whitespace, so
no backtracking is needed). -/
def skipWs1 : List Char → Option (List Char)
  | [] => none
  | c :: cs => if isWsChar c then some ((c :: cs).dropWhile isWsChar) else none

/-- Greedy-with-backtracking \s+(.+)$ after the dash: the longest
whitespace head that leaves a nonempty all-dot tail wins, the tail being
the captured name. -/
def tailNameLoop : Nat → List Char → Option (List Char)
  | 0, _ => none
  | k + 1, r =>
    let t := r.drop (k + 1)
    if !t.isEmpty && t.all isDotChar then some t else tailNameLoop k r

/-- Captured name group after the dash. -/
def matchNameAfterDash (r : List Char) : Option (List Char) :=
  tailNameLoop (r.takeWhile isWsChar).length r

/-- One line against the auval record regex
(leading \s*, three (\w{4})\s+ groups, a dash, \s+(.+)$), the captured
name trimmed as in the source. -/
def parseAuvalLine (line : List Char) : Option AudioUnit :=
  match take4Word (line.dropWhile isWsChar) with
  | none => none
  | some (t1, r1) =>
    match skipWs1 r1 with
    | none => none
    | some r2 =>
      match take4Word r2 with
      | none => none
      | some (t2, r3) =>
        match skipWs1 r3 with
        | none => none
        | some r4 =>
          match take4Word r4 with
          | none => none
          | some (t3, r5) =>
            match skipWs1 r5 with
            | none => none
            | some r6 =>
              match r6 with
              | c :: r7 =>
                if c = '-' then
                  match matchNameAfterDash r7 with
                  | none => none
                  | some nm =>
                    some { type := t1.asString
                           subtype := t2.asString
                           manufacturer := t3.asString
                           name := (trimWs nm).asString }
                else none
              | [] => none

/-- parseAuvalOutput: split on newlines keeping empties, parse each line,
collect the records of matching lines and drop the rest. -/
def parseAuvalOutput (output : String) : List AudioUnit :=
  (jsSplit '\n' output.toList).filterMap parseAuvalLine

/- ===== MIDI message builders (midi-bridge.ts) ===== -/

/-- Bit pattern of the 32-bit truncation that JS applies to each bitwise
operand. -/
def toUint32 (x : Int) : Nat :=
  (x % 4294967296).toNat

/-- Reading a 32-bit pattern back as a signed JS integer. -/
def toInt32 (n : Nat) : Int :=
  if n % 4294967296 < 2147483648 then ((n % 4294967296 : Nat) : Int)
  else ((n % 4294967296 : Nat) : Int) - 4294967296

/-- JS bitwise AND: ToInt32 of both operands, AND of the 32-bit patterns. -/
def jsBitAnd (a b : Int) : Int :=
  toInt32 (Nat.land (toUint32 a) (toUint32 b))

/-- Byte list of sendNoteOn. -/
def sendNoteOnMessage (channel note velocity : Int) : List Int :=
  [0x90 + jsBitAnd channel 0x0f, jsBitAnd note 0x7f, jsBitAnd velocity 0x7f]

/-- Byte list of sendNoteOff: the velocity byte is the literal 0. -/
def sendNoteOffMessage (channel note : Int) : List Int :=
  [0x80 + jsBitAnd channel 0x0f, jsBitAnd note 0x7f, 0]

/-- Byte list of sendCC. -/
def sendCCMessage (channel controller value : Int) : List Int :=
  [0xb0 + jsBitAnd channel 0x0f, jsBitAnd controller 0x7f, jsBitAnd value 0x7f]

/-- Byte list of sendProgramChange. -/
def sendProgramChangeMessage (channel program : Int) : List Int :=
  [0xc0 + jsBitAnd channel 0x0f, jsBitAnd program 0x7f]

/- ===== Claim-side definitions ===== -/

/-- Pre-order listing of a forest: each element before its children,
siblings in order. -/
def preorderElems : AXForest → List AXElement
  | .nil => []
  | .cons (.mk r t d v cs) rest =>
    AXElement.mk r t d v cs :: (preorderElems cs ++ preorderElems rest)

/-- Stated from the claim text for comparison with findPluginNames: the
ordered titles of every button-role element with nonempty title not among
the transport labels M, S, R, over the pre-order of the forest. -/
def claimedPluginTitles (es : AXForest) : List String :=
  (preorderElems es).filterMap (fun e =>
    let title := e.title.getD ""
    if e.role.getD "" == "AXButton" && title ≠ "" && title ≠ "M" && title ≠ "S" && title ≠ "R" then
      some title
    else none)

/-- Forest truncation at a relative depth: truncForest k keeps exactly the
elements whose depth below the roots is < k. -/
def truncForest : Nat → AXForest → AXForest
  | 0, _ => .nil
  | _ + 1, .nil => .nil
  | k + 1, .cons (.mk r t d v cs) rest =>
    .cons (.mk r t d v (truncForest k cs)) (truncForest (k + 1) rest)

/-- Projection of a track record onto the fields computed from the matched
row itself (rather than from its subtree). -/
def trackCore (t : TrackInfo) : Nat × Int × String :=
  (t.index, t.trackNumber, t.name)

/-- Whether an element within the depth bound has a label that matches the
parameter name and a writable role, phrased as in the claim. -/
def hasWritableMatch : AXForest → String → Nat → Nat → Bool
  | .nil, _, _, _ => false
  | .cons (.mk r t d _ cs) rest, p, depth, maxDepth =>
    if depth < maxDepth then
      (matchesControlName (axControlName r t d) p &&
        (r.getD "" == "AXSlider" || r.getD "" == "AXTextField")) ||
      hasWritableMatch cs p (depth + 1) maxDepth ||
      hasWritableMatch rest p depth maxDepth
    else false

/-- Lift of hasWritableMatch to the window loop of setPluginParameter. -/
def anyWindowHasWritableMatch : AXForest → String → Bool
  | .nil, _ => false
  | .cons (.mk _ _ _ _ cs) rest, p =>
    hasWritableMatch cs p 0 8 || anyWindowHasWritableMatch rest p

/-- Whether findAndSetParameter would write this element when reached:
label match plus a role the value converts for (any text field; a slider
only when the value parses as a float). -/
def acceptsWrite (paramName value : String) : AXElement → Bool
  | .mk r t d _ _ =>
    matchesControlName (axControlName r t d) paramName &&
    ((r.getD "" == "AXSlider" && swiftFloatParses value) || r.getD "" == "AXTextField")

/-- No element within the depth bound accepts the write. -/
def noAcceptingMatch (paramName value : String) : AXForest → Nat → Nat → Bool
  | .nil, _, _ => true
  | .cons (.mk r t d v cs) rest, depth, maxDepth =>
    if depth < maxDepth then
      !acceptsWrite paramName value (.mk r t d v cs) &&
      noAcceptingMatch paramName value cs (depth + 1) maxDepth &&
      noAcceptingMatch paramName value rest depth maxDepth
    else true

/- ===== Concrete scenario fixtures ===== -/

/-- A track row for coordinator scenarios. -/
def c1Track : TrackInfo :=
  { index := 0, trackNumber := 1, name := "Audio 1", muted := false, solo := false
    recordEnabled := false, volume := 0, plugins := [] }

/-- One window whose only control is a slider labelled Other: no writable
match for the parameter Gain exists anywhere. -/
def c2Windows : AXForest :=
  .cons (.mk (some "AXWindow") none none none
    (.cons (.mk (some "AXSlider") none (some "Other") (some "1") .nil) .nil)) .nil

/-- A slider labelled Gain holding 0.5. -/
def c3Slider : AXElement := .mk (some "AXSlider") none (some "Gain") (some "0.5") .nil

/-- A text field labelled Gain holding old. -/
def c3TextField : AXElement := .mk (some "AXTextField") none (some "Gain") (some "old") .nil

/-- Two writable controls with the identical label Gain, the slider first
in pre-order. -/
def c3Forest : AXForest := .cons c3Slider (.cons c3TextField .nil)

/-- A named button nested two levels below a track row. -/
def c4Button : AXElement := .mk (some "AXButton") (some "DeepPlugin") none none .nil

/-- A track row at depth 0 whose subtree holds a button at depth 2. -/
def c4Forest : AXForest :=
  .cons (.mk (some "AXLayoutItem") none (some "Spur 1 „A“") none
    (.cons (.mk (some "AXGroup") none none none (.cons c4Button .nil)) .nil)) .nil

/-- Children of a track row holding one plugin button. -/
def c6TrackChildren : AXForest :=
  .cons (.mk (some "AXGroup") none none none
    (.cons (.mk (some "AXButton") (some "ChannelEQ") none none .nil) .nil)) .nil

/-- A track row whose subtree holds one plugin button. -/
def c6TrackElem : AXElement :=
  .mk (some "AXLayoutItem") none (some "Spur 1 „A“") none c6TrackChildren

/-- A forest holding one track row with a plugin button below it. -/
def c6Forest : AXForest := .cons c6TrackElem .nil

/-- A window with no Spuren or Tracks container anywhere. -/
def c8Window : AXElement :=
  .mk (some "AXWindow") none none none
    (.cons (.mk (some "AXGroup") none (some "Inspector") none .nil) .nil)

/- ===== Theorems ===== -/

/-- Structural induction over forests with the element case folded into the
cons case. -/
theorem axforest_ind (P : AXForest → Prop)
    (hnil : P AXForest.nil)
    (hcons : ∀ r t d v cs rest, P cs → P rest →
      P (AXForest.cons (AXElement.mk r t d v cs) rest)) :
    ∀ es, P es := by
  intro es
  refine @AXForest.rec (fun e => P (AXElement.children e)) P ?_ ?_ ?_ es
  · intro r t d v cs ih
    exact ih
  · exact hnil
  · intro e rest ihE ihR
    cases e with
    | mk r t d v cs => exact hcons r t d v cs rest ihE ihR

/-- C1: for a track-listing call, when the privileged helper invocation
fails (throws, times out or yields unparseable output, all modelled as
none) or parses an empty sequence, the coordinator runs the JXA fallback
and returns its successful result unchanged; when the privileged helper
returns a nonempty sequence, that sequence is returned and the outcome is
the same for every fallback, so the fallback is never consulted. -/
theorem C1_coordinator_fallback :
    (∀ (fb : Except String (List TrackInfo)) (l : List TrackInfo),
        fb = .ok l → listTracksCoordinator none fb = .ok l) ∧
    (∀ (fb : Except String (List TrackInfo)) (l : List TrackInfo),
        fb = .ok l → listTracksCoordinator (some []) fb = .ok l) ∧
    (∀ (ts : List TrackInfo) (fb fb2 : Except String (List TrackInfo)),
        ts ≠ [] →
          listTracksCoordinator (some ts) fb = .ok ts ∧
          listTracksCoordinator (some ts) fb = listTracksCoordinator (some ts) fb2) := by
  refine ⟨?_, ?_, ?_⟩
  · rintro fb l rfl; rfl
  · rintro fb l rfl; rfl
  · intro ts fb fb2 h
    have hl : 0 < ts.length := List.length_pos.mpr h
    exact ⟨by simp [listTracksCoordinator, hl], by simp [listTracksCoordinator, hl]⟩

/-- Witness for C1 at concrete inputs: a failing helper and an empty helper
both hand back the fallback result unchanged, and a nonempty helper result
wins over a failing fallback. -/
theorem C1_coordinator_fallback_witness :
    listTracksCoordinator none (.ok [c1Track]) = .ok [c1Track] ∧
    listTracksCoordinator (some []) (.ok [c1Track]) = .ok [c1Track] ∧
    listTracksCoordinator (some [c1Track]) (.error "boom") = .ok [c1Track] :=
  ⟨C1_coordinator_fallback.1 _ _ rfl,
   C1_coordinator_fallback.2.1 _ _ rfl,
   (C1_coordinator_fallback.2.2 [c1Track] (.error "boom") (.ok []) (by decide)).1⟩

/-- C7: the control-name matcher succeeds exactly when the two labels agree
after character case folding; the match is exact rather than substring, so
the target Mute never matches the label Mute Group, while pure case
differences always match. -/
theorem C7_matchesControlName_exact :
    (∀ label target : String,
        matchesControlName label target = true ↔ lowerChars label = lowerChars target) ∧
    matchesControlName "Mute" "Mute Group" = false ∧
    matchesControlName "Mute Group" "Mute" = false ∧
    matchesControlName "mUtE" "MUTE" = true := by
  refine ⟨fun label target => ?_, by decide, by decide, by decide⟩
  simp [matchesControlName]

/-- Witness for C7 at concrete inputs. -/
theorem C7_matchesControlName_exact_witness :
    lowerChars "LOGIC" = lowerChars "logic" ∧ matchesControlName "LOGIC" "logic" = true :=
  ⟨by decide, (C7_matchesControlName_exact.1 "LOGIC" "logic").mpr (by decide)⟩

/-- C8: when neither the Spuren container nor the Tracks container is found
within the search bound, listTracks returns the empty track sequence
rather than an error. -/
theorem C8_no_container_yields_empty (w : AXElement)
    (hs : findElementByDescription w "Spuren" 4 = none)
    (ht : findElementByDescription w "Tracks" 4 = none) :
    swiftListTracks w = [] := by
  simp [swiftListTracks, hs, ht]

/-- Witness for C8: a concrete window without either container. -/
theorem C8_no_container_yields_empty_witness :
    findElementByDescription c8Window "Spuren" 4 = none ∧
    findElementByDescription c8Window "Tracks" 4 = none ∧
    swiftListTracks c8Window = [] :=
  ⟨by decide, by decide,
   C8_no_container_yields_empty c8Window (by decide) (by decide)⟩

/-- JS masking with 0x0f keeps exactly the four low bits: on integers this
is the nonnegative remainder mod 16. -/
theorem jsBitAnd_mod16 (x : Int) : jsBitAnd x 15 = x % 16 := by
  have h15 : toUint32 15 = 15 := by decide
  have hland : Nat.land (toUint32 x) 15 = toUint32 x % 16 := by
    have h := Nat.and_pow_two_sub_one_eq_mod (toUint32 x) 4
    norm_num at h
    exact h
  have hx : ((toUint32 x : Nat) : Int) = x % 4294967296 := by
    simp only [toUint32]
    omega
  show toInt32 (Nat.land (toUint32 x) (toUint32 15)) = x % 16
  rw [h15, hland]
  simp only [toInt32]
  split <;> omega

/-- JS masking with 0x7f keeps exactly the seven low bits: on integers this
is the nonnegative remainder mod 128. -/
theorem jsBitAnd_mod128 (x : Int) : jsBitAnd x 127 = x % 128 := by
  have h127 : toUint32 127 = 127 := by decide
  have hland : Nat.land (toUint32 x) 127 = toUint32 x % 128 := by
    have h := Nat.and_pow_two_sub_one_eq_mod (toUint32 x) 7
    norm_num at h
    exact h
  have hx : ((toUint32 x : Nat) : Int) = x % 4294967296 := by
    simp only [toUint32]
    omega
  show toInt32 (Nat.land (toUint32 x) (toUint32 127)) = x % 128
  rw [h127, hland]
  simp only [toInt32]
  split <;> omega

/-- C10: each MIDI send primitive builds a well-formed channel-voice
message for all integer inputs: the status byte is the fixed command value
plus the channel reduced to 0..15, every data byte is reduced to 0..127,
and note-off always carries velocity byte 0, so out-of-range inputs never
produce an out-of-range byte. -/
theorem C10_midi_message_bytes (channel note velocity controller value program : Int) :
    sendNoteOnMessage channel note velocity =
      [0x90 + channel % 16, note % 128, velocity % 128] ∧
    sendNoteOffMessage channel note = [0x80 + channel % 16, note % 128, 0] ∧
    sendCCMessage channel controller value =
      [0xb0 + channel % 16, controller % 128, value % 128] ∧
    sendProgramChangeMessage channel program = [0xc0 + channel % 16, program % 128] ∧
    (0 ≤ channel % 16 ∧ channel % 16 < 16) ∧
    (0 ≤ note % 128 ∧ note % 128 < 128) ∧
    (0 ≤ velocity % 128 ∧ velocity % 128 < 128) ∧
    (0 ≤ controller % 128 ∧ controller % 128 < 128) ∧
    (0 ≤ program % 128 ∧ program % 128 < 128) := by
  refine ⟨?_, ?_, ?_, ?_, ?_, ?_, ?_, ?_, ?_⟩
  · simp [sendNoteOnMessage, jsBitAnd_mod16, jsBitAnd_mod128]
  · simp [sendNoteOffMessage, jsBitAnd_mod16, jsBitAnd_mod128]
  · simp [sendCCMessage, jsBitAnd_mod16, jsBitAnd_mod128]
  · simp [sendProgramChangeMessage, jsBitAnd_mod16, jsBitAnd_mod128]
  all_goals omega

/-- take4Word consumes from the front: the remainder is made of characters
of the input. -/
theorem take4Word_subset {cs t r : List Char} (h : take4Word cs = some (t, r)) :
    ∀ a, a ∈ r → a ∈ cs := by
  match cs with
  | [] => simp [take4Word] at h
  | [c1] => simp [take4Word] at h
  | [c1, c2] => simp [take4Word] at h
  | [c1, c2, c3] => simp [take4Word] at h
  | c1 :: c2 :: c3 :: c4 :: rest =>
    simp only [take4Word] at h
    split at h
    · simp only [Option.some.injEq, Prod.mk.injEq] at h
      intro a ha
      simp [h.2 ▸ ha]
    · exact absurd h (by simp)

/-- skipWs1 consumes from the front. -/
theorem skipWs1_subset {cs r : List Char} (h : skipWs1 cs = some r) :
    ∀ a, a ∈ r → a ∈ cs := by
  match cs with
  | [] => simp [skipWs1] at h
  | c :: cs =>
    simp only [skipWs1] at h
    split at h
    · simp only [Option.some.injEq] at h
      intro a ha
      exact List.dropWhile_subset _ (h ▸ ha)
    · exact absurd h (by simp)

/-- C9: the sample auval -l catalog line parses to exactly one record with
the four fields, and every line lacking a dash is silently skipped: it
produces no record (and the total parser can raise nothing). -/
theorem C9_parseAuvalOutput :
    parseAuvalOutput "aufx    AUBa    appl    -  AUBandpass\n" =
      [{ type := "aufx", subtype := "AUBa", manufacturer := "appl", name := "AUBandpass" }] ∧
    ∀ line : List Char, '-' ∉ line → parseAuvalLine line = none := by
  constructor
  · decide
  · intro line hnd
    cases h1 : take4Word (line.dropWhile isWsChar) with
    | none => simp [parseAuvalLine, h1]
    | some pr1 =>
      obtain ⟨t1, r1⟩ := pr1
      cases h2 : skipWs1 r1 with
      | none => simp [parseAuvalLine, h1, h2]
      | some r2 =>
        cases h3 : take4Word r2 with
        | none => simp [parseAuvalLine, h1, h2, h3]
        | some pr2 =>
          obtain ⟨t2, r3⟩ := pr2
          cases h4 : skipWs1 r3 with
          | none => simp [parseAuvalLine, h1, h2, h3, h4]
          | some r4 =>
            cases h5 : take4Word r4 with
            | none => simp [parseAuvalLine, h1, h2, h3, h4, h5]
            | some pr3 =>
              obtain ⟨t3, r5⟩ := pr3
              cases h6 : skipWs1 r5 with
              | none => simp [parseAuvalLine, h1, h2, h3, h4, h5, h6]
              | some r6 =>
                cases h7 : r6 with
                | nil => simp [parseAuvalLine, h1, h2, h3, h4, h5, h6, h7]
                | cons c r7 =>
                  by_cases hc : c = '-'
                  · exfalso
                    apply hnd
                    apply List.dropWhile_subset isWsChar
                    apply take4Word_subset h1
                    apply skipWs1_subset h2
                    apply take4Word_subset h3
                    apply skipWs1_subset h4
                    apply take4Word_subset h5
                    apply skipWs1_subset h6
                    rw [h7, hc]
                    exact List.mem_cons_self '-' r7
                  · simp [parseAuvalLine, h1, h2, h3, h4, h5, h6, h7, hc]

/-- Witness for C9 at a concrete dashless line. -/
theorem C9_parseAuvalOutput_witness :
    ('-' ∉ "aufx AUBa appl AUBandpass".toList) ∧
    parseAuvalLine "aufx AUBa appl AUBandpass".toList = none :=
  ⟨by decide, C9_parseAuvalOutput.2 _ (by decide)⟩

/-- A separator-free block passes through the Swift split accumulator. -/
theorem splitTokensAux_nospace (w : List Char) :
    ∀ (cur cs : List Char), (∀ c ∈ w, ¬(c = ' ')) →
      splitTokensAux cur (w ++ cs) = splitTokensAux (cur ++ w) cs := by
  induction w with
  | nil => intro cur cs _; simp
  | cons a w ih =>
    intro cur cs hw
    have ha : ¬(a = ' ') := hw a (List.mem_cons_self a w)
    simp only [List.cons_append, splitTokensAux, if_neg ha, List.append_eq]
    rw [ih (cur ++ [a]) cs (fun c hc => hw c (List.mem_cons_of_mem a hc))]
    simp

/-- Swift token split of a label with two leading space-free tokens. -/
theorem splitTokens_two (p ds tail : List Char) (a : Char) (p2 : List Char) (b : Char) (ds2 : List Char)
    (hp : p = a :: p2) (hds : ds = b :: ds2)
    (hpc : ∀ c ∈ p, ¬(c = ' ')) (hdsc : ∀ c ∈ ds, ¬(c = ' ')) :
    splitTokens (p ++ (' ' :: (ds ++ (' ' :: tail)))) = p :: ds :: splitTokens tail := by
  unfold splitTokens
  rw [splitTokensAux_nospace p [] (' ' :: (ds ++ (' ' :: tail))) hpc]
  simp only [List.nil_append, splitTokensAux, if_pos rfl]
  rw [hp]
  simp only [List.isEmpty_cons, Bool.false_eq_true, if_false]
  rw [← hp, splitTokensAux_nospace ds [] (' ' :: tail) hdsc]
  simp only [List.nil_append, splitTokensAux, if_pos rfl]
  rw [hds]
  simp only [List.isEmpty_cons, Bool.false_eq_true, if_false]
  rw [← hds]
  simp

/-- A separator-free block passes through the JS split accumulator. -/
theorem jsSplitAux_nospace (sep : Char) (w : List Char) :
    ∀ (cur cs : List Char), (∀ c ∈ w, ¬(c = sep)) →
      jsSplitAux sep cur (w ++ cs) = jsSplitAux sep (cur ++ w) cs := by
  induction w with
  | nil => intro cur cs _; simp
  | cons a w ih =>
    intro cur cs hw
    have ha : ¬(a = sep) := hw a (List.mem_cons_self a w)
    simp only [List.cons_append, jsSplitAux, if_neg ha, List.append_eq]
    rw [ih (cur ++ [a]) cs (fun c hc => hw c (List.mem_cons_of_mem a hc))]
    simp

/-- JS split of a label with two leading space-free tokens. -/
theorem jsSplit_two (p ds tail : List Char)
    (hpc : ∀ c ∈ p, ¬(c = ' ')) (hdsc : ∀ c ∈ ds, ¬(c = ' ')) :
    jsSplit ' ' (p ++ (' ' :: (ds ++ (' ' :: tail)))) = p :: ds :: jsSplit ' ' tail := by
  unfold jsSplit
  rw [jsSplitAux_nospace ' ' p [] (' ' :: (ds ++ (' ' :: tail))) hpc]
  simp only [List.nil_append, jsSplitAux, if_pos rfl]
  rw [jsSplitAux_nospace ' ' ds [] (' ' :: tail) hdsc]
  simp only [List.nil_append, jsSplitAux, if_pos rfl]
  simp

/-- A decimal digit is none of the characters the label grammar treats
specially. -/
theorem digit_ne_special {c : Char} (h : c.isDigit = true) :
    ¬(c = ' ') ∧ ¬(c = '-') ∧ ¬(c = '+') ∧ ¬(c = '„') ∧ ¬(c = '"') ∧
    ¬(c = '“') ∧ ¬(c = '”') ∧ ¬(isWsChar c = true) := by
  refine ⟨?_, ?_, ?_, ?_, ?_, ?_, ?_, ?_⟩ <;> intro hc
  · rw [hc] at h; exact absurd h (by decide)
  · rw [hc] at h; exact absurd h (by decide)
  · rw [hc] at h; exact absurd h (by decide)
  · rw [hc] at h; exact absurd h (by decide)
  · rw [hc] at h; exact absurd h (by decide)
  · rw [hc] at h; exact absurd h (by decide)
  · rw [hc] at h; exact absurd h (by decide)
  · simp only [isWsChar, Bool.or_eq_true, decide_eq_true_eq] at hc
    rcases hc with ((((rfl | rfl) | rfl) | rfl) | rfl) | rfl <;> exact absurd h (by decide)

/-- takeWhile keeps a list every element of which satisfies the test. -/
theorem takeWhile_all {p : Char → Bool} : ∀ (l : List Char), (∀ c ∈ l, p c = true) →
    l.takeWhile p = l := by
  intro l
  induction l with
  | nil => intro _; rfl
  | cons a l ih =>
    intro h
    simp only [List.takeWhile_cons, h a (List.mem_cons_self a l), if_pos]
    rw [ih (fun c hc => h c (List.mem_cons_of_mem a hc))]

/-- Swift Int parse of an all-digit token within the 64-bit range gives
its value. -/
theorem swiftParseInt_digits {ds : List Char} {N : Nat}
    (hne : ds ≠ []) (hd : ∀ c ∈ ds, c.isDigit = true)
    (hN : parseDigitsAux 0 ds = some N) (hNb : N < 2 ^ 53) :
    swiftParseInt ds = some (N : Int) := by
  match ds, hne with
  | c :: rest, _ =>
    have hfacts := digit_ne_special (hd c (List.mem_cons_self c rest))
    have hle : N ≤ 9223372036854775807 := by omega
    simp only [swiftParseInt, if_neg hfacts.2.1, if_neg hfacts.2.2.1, parseNatToken,
      List.isEmpty_cons, Bool.false_eq_true, if_false, hN]
    simp [hle]

/-- JS parseInt of an all-digit token within the exact double range gives
its value. -/
theorem jsParseInt_digits {ds : List Char} {N : Nat}
    (hne : ds ≠ []) (hd : ∀ c ∈ ds, c.isDigit = true)
    (hN : parseDigitsAux 0 ds = some N) (hNb : N < 2 ^ 53) :
    jsParseInt ds = some (N : Int) := by
  match ds, hne with
  | c :: rest, _ =>
    have hfacts := digit_ne_special (hd c (List.mem_cons_self c rest))
    have hdw : (c :: rest).dropWhile isWsChar = c :: rest := by
      simp only [List.dropWhile_cons]
      simp [hfacts.2.2.2.2.2.2.2]
    rw [jsParseInt, hdw]
    simp only [if_neg hfacts.2.1, if_neg hfacts.2.2.1, jsParseIntCore]
    rw [takeWhile_all (c :: rest) hd]
    simp only [List.isEmpty_cons, Bool.false_eq_true, if_false, hN]
    have h53 : N < 9007199254740992 := by omega
    simp [roundNatToDouble, h53]

/-- breakAtChar misses a character that does not occur. -/
theorem breakAtChar_not_mem {q : Char} : ∀ {cs : List Char}, q ∉ cs →
    breakAtChar q cs = none := by
  intro cs
  induction cs with
  | nil => intro _; rfl
  | cons a cs ih =>
    intro h
    have ha : ¬(a = q) := fun hq => h (hq ▸ List.mem_cons_self a cs)
    simp only [breakAtChar, if_neg ha]
    exact ih (fun hq => h (List.mem_cons_of_mem a hq))

/-- breakAtChar lands right after the first occurrence. -/
theorem breakAtChar_append {q : Char} : ∀ {w tail : List Char}, q ∉ w →
    breakAtChar q (w ++ q :: tail) = some tail := by
  intro w
  induction w with
  | nil => intro tail _; simp [breakAtChar]
  | cons a w ih =>
    intro tail h
    have ha : ¬(a = q) := fun hq => h (hq ▸ List.mem_cons_self a w)
    simp only [List.cons_append, breakAtChar, if_neg ha]
    exact ih (fun hq => h (List.mem_cons_of_mem a hq))

/-- takeBeforeChar yields the part before the first occurrence. -/
theorem takeBeforeChar_append {q : Char} : ∀ {w tail : List Char}, q ∉ w →
    takeBeforeChar q (w ++ q :: tail) = some w := by
  intro w
  induction w with
  | nil => intro tail _; simp [takeBeforeChar]
  | cons a w ih =>
    intro tail h
    have ha : ¬(a = q) := fun hq => h (hq ▸ List.mem_cons_self a w)
    simp only [List.cons_append, takeBeforeChar, if_neg ha, List.append_eq]
    rw [ih (fun hq => h (List.mem_cons_of_mem a hq))]
    rfl

/-- lastIndexOfChar of a unique trailing occurrence is the length of what
precedes it. -/
theorem lastIndexOfChar_append {q : Char} : ∀ {w : List Char}, q ∉ w →
    lastIndexOfChar q (w ++ [q]) = some w.length := by
  intro w
  induction w with
  | nil => intro _; simp [lastIndexOfChar]
  | cons a w ih =>
    intro h
    simp only [List.cons_append, lastIndexOfChar, List.append_eq]
    rw [ih (fun hq => h (List.mem_cons_of_mem a hq))]
    simp

/-- A character distinct from the space and absent from both leading tokens
does not occur in the prefix-number block of a label. -/
theorem notMem_block {q : Char} {p ds : List Char}
    (hq : ¬(q = ' ')) (hp : ∀ c ∈ p, ¬(c = q)) (hds : ∀ c ∈ ds, ¬(c = q)) :
    q ∉ (p ++ (' ' :: (ds ++ [' ']))) := by
  intro hmem
  rcases List.mem_append.mp hmem with h | h
  · exact hp q h rfl
  · rcases List.mem_cons.mp h with h | h
    · exact hq h
    · rcases List.mem_append.mp h with h | h
      · exact hds q h rfl
      · rcases List.mem_cons.mp h with h | h
        · exact hq h
        · exact absurd h (List.not_mem_nil q)

/-- A character absent from the block, from the quoted interior and
distinct from the quote characters does not occur in the quoted label. -/
theorem notMem_quoted {q qc : Char} {W n : List Char}
    (hW : q ∉ W) (hqc : ¬(q = qc)) (hn : ∀ c ∈ n, ¬(c = q)) :
    q ∉ (W ++ (qc :: (n ++ [qc]))) := by
  intro hmem
  rcases List.mem_append.mp hmem with h | h
  · exact hW h
  · rcases List.mem_cons.mp h with h | h
    · exact hqc h
    · rcases List.mem_append.mp h with h | h
      · exact hn q h rfl
      · rcases List.mem_cons.mp h with h | h
        · exact hqc h
        · exact absurd h (List.not_mem_nil q)

/-- C5 amended: on labels Prefix N „Name“ and Prefix N "Name" whose prefix
token has no space or quote characters, whose N token is all digits with a
value below 2^53, and whose interior carries no quote characters and no
surrounding whitespace, the Swift parsers return N and Name for both
variants, and so do the JXA parsers. The amendment restricts the interior
to one equal to its own trim because the JXA straight-quote path returns
the interior untrimmed (see the counterexample), and bounds N because the
Swift parse nil-fails past the 64-bit range (the helper then reports -1)
while the JS parse loses exactness past 2^53. -/
theorem C5_track_label_parsers (p ds n : List Char) (N : Nat)
    (hpne : p ≠ [])
    (hpc : ∀ c ∈ p, ¬(c = ' ') ∧ ¬(c = '„') ∧ ¬(c = '"'))
    (hdsne : ds ≠ []) (hdsd : ∀ c ∈ ds, c.isDigit = true)
    (hdsv : parseDigitsAux 0 ds = some N) (hNb : N < 2 ^ 53)
    (hn : ∀ c ∈ n, ¬(c = '„') ∧ ¬(c = '“') ∧ ¬(c = '”') ∧ ¬(c = '"'))
    (hnt : trimWs n = n) :
    extractTrackNameCore (p ++ (' ' :: (ds ++ (' ' :: ('„' :: (n ++ ['“'])))))) = n ∧
    extractTrackNameCore (p ++ (' ' :: (ds ++ (' ' :: ('"' :: (n ++ ['"'])))))) = n ∧
    extractTrackNumberCore (p ++ (' ' :: (ds ++ (' ' :: ('„' :: (n ++ ['“'])))))) = (N : Int) ∧
    extractTrackNumberCore (p ++ (' ' :: (ds ++ (' ' :: ('"' :: (n ++ ['"'])))))) = (N : Int) ∧
    jxaParseTrackNameCore (p ++ (' ' :: (ds ++ (' ' :: ('„' :: (n ++ ['“'])))))) = n ∧
    jxaParseTrackNameCore (p ++ (' ' :: (ds ++ (' ' :: ('"' :: (n ++ ['"'])))))) = n ∧
    jxaParseTrackNumberCore (p ++ (' ' :: (ds ++ (' ' :: ('„' :: (n ++ ['“'])))))) = some (N : Int) ∧
    jxaParseTrackNumberCore (p ++ (' ' :: (ds ++ (' ' :: ('"' :: (n ++ ['"'])))))) = some (N : Int) := by
  obtain ⟨pa, p2, hpeq⟩ := List.exists_cons_of_ne_nil hpne
  obtain ⟨db, ds2, hdseq⟩ := List.exists_cons_of_ne_nil hdsne
  have hp_space : ∀ c ∈ p, ¬(c = ' ') := fun c hc => (hpc c hc).1
  have hp_dq : ∀ c ∈ p, ¬(c = '„') := fun c hc => (hpc c hc).2.1
  have hp_q : ∀ c ∈ p, ¬(c = '"') := fun c hc => (hpc c hc).2.2
  have hds_space : ∀ c ∈ ds, ¬(c = ' ') := fun c hc => (digit_ne_special (hdsd c hc)).1
  have hds_dq : ∀ c ∈ ds, ¬(c = '„') := fun c hc => (digit_ne_special (hdsd c hc)).2.2.2.1
  have hds_q : ∀ c ∈ ds, ¬(c = '"') := fun c hc => (digit_ne_special (hdsd c hc)).2.2.2.2.1
  have hn_dq : ∀ c ∈ n, ¬(c = '„') := fun c hc => (hn c hc).1
  have hn_qnot : '"' ∉ n := fun hmem => (hn '"' hmem).2.2.2 rfl
  have hWdq : '„' ∉ (p ++ (' ' :: (ds ++ [' ']))) :=
    notMem_block (by decide) hp_dq hds_dq
  have hWq : '"' ∉ (p ++ (' ' :: (ds ++ [' ']))) :=
    notMem_block (by decide) hp_q hds_q
  have hassoc1 : p ++ (' ' :: (ds ++ (' ' :: ('„' :: (n ++ ['“']))))) =
      (p ++ (' ' :: (ds ++ [' ']))) ++ ('„' :: (n ++ ['“'])) := by simp
  have hassoc2 : p ++ (' ' :: (ds ++ (' ' :: ('"' :: (n ++ ['"']))))) =
      (p ++ (' ' :: (ds ++ [' ']))) ++ ('"' :: (n ++ ['"'])) := by simp
  have hdqL2 : '„' ∉ ((p ++ (' ' :: (ds ++ [' ']))) ++ ('"' :: (n ++ ['"']))) :=
    notMem_quoted hWdq (by decide) hn_dq
  have hfilter : (n ++ ['“']).filter (fun c => !(c = '“' || c = '”' || c = '"')) = n := by
    rw [List.filter_append]
    have h1 : n.filter (fun c => !(c = '“' || c = '”' || c = '"')) = n :=
      List.filter_eq_self.mpr (fun c hc => by
        have hcf := hn c hc
        simp [hcf.2.1, hcf.2.2.1, hcf.2.2.2])
    have h2 : ['“'].filter (fun c => !(c = '“' || c = '”' || c = '"')) = ([] : List Char) := rfl
    rw [h1, h2, List.append_nil]
  refine ⟨?_, ?_, ?_, ?_, ?_, ?_, ?_, ?_⟩
  · unfold extractTrackNameCore
    rw [hassoc1, breakAtChar_append hWdq]
    show trimWs ((n ++ ['“']).filter (fun c => !(c = '“' || c = '”' || c = '"'))) = n
    rw [hfilter, hnt]
  · unfold extractTrackNameCore
    rw [hassoc2, breakAtChar_not_mem hdqL2, breakAtChar_append hWq]
    show trimWs (match takeBeforeChar '"' (n ++ ['"']) with
      | some before => before
      | none => n ++ ['"']) = n
    rw [takeBeforeChar_append hn_qnot]
    exact hnt
  · unfold extractTrackNumberCore
    rw [splitTokens_two p ds ('„' :: (n ++ ['“'])) pa p2 db ds2 hpeq hdseq hp_space hds_space]
    show (match swiftParseInt ds with | some m => m | none => -1) = (N : Int)
    rw [swiftParseInt_digits hdsne hdsd hdsv hNb]
  · unfold extractTrackNumberCore
    rw [splitTokens_two p ds ('"' :: (n ++ ['"'])) pa p2 db ds2 hpeq hdseq hp_space hds_space]
    show (match swiftParseInt ds with | some m => m | none => -1) = (N : Int)
    rw [swiftParseInt_digits hdsne hdsd hdsv hNb]
  · unfold jxaParseTrackNameCore
    rw [hassoc1, breakAtChar_append hWdq]
    show trimWs ((n ++ ['“']).filter (fun c => !(c = '“' || c = '”' || c = '"'))) = n
    rw [hfilter, hnt]
  · unfold jxaParseTrackNameCore
    rw [hassoc2, breakAtChar_not_mem hdqL2, breakAtChar_append hWq]
    show (match lastIndexOfChar '"' (n ++ ['"']) with
      | some i => (n ++ ['"']).take i
      | none => n ++ ['"']) = n
    rw [lastIndexOfChar_append hn_qnot]
    exact List.take_left n ['"']
  · unfold jxaParseTrackNumberCore
    rw [jsSplit_two p ds ('„' :: (n ++ ['“'])) hp_space hds_space]
    show jsParseInt ds = some (N : Int)
    rw [jsParseInt_digits hdsne hdsd hdsv hNb]
  · unfold jxaParseTrackNumberCore
    rw [jsSplit_two p ds ('"' :: (n ++ ['"'])) hp_space hds_space]
    show jsParseInt ds = some (N : Int)
    rw [jsParseInt_digits hdsne hdsd hdsv hNb]

/-- Counterexample to C5 as stated: on the straight-quote label
Track 1 " X " whose quoted interior is the padded " X ", the JXA
track-name parser returns the raw interior, not its trim (the Swift parser
does trim, so the two parsers also disagree here). -/
theorem C5_counterexample :
    jxaParseTrackNameCore ("Track 1 \" X \"".toList) = " X ".toList ∧
    extractTrackNameCore ("Track 1 \" X \"".toList) = "X".toList ∧
    " X ".toList ≠ trimWs (" X ".toList) := by
  refine ⟨by decide, by decide, by decide⟩

/-- Witness for C5 at the concrete label pair Spur 4 „Mic“ and
Spur 4 "Mic". -/
theorem C5_track_label_parsers_witness :
    extractTrackNameCore ("Spur".toList ++ (' ' :: ("4".toList ++ (' ' :: ('„' :: ("Mic".toList ++ ['“'])))))) = "Mic".toList ∧
    extractTrackNumberCore ("Spur".toList ++ (' ' :: ("4".toList ++ (' ' :: ('"' :: ("Mic".toList ++ ['"'])))))) = (4 : Int) ∧
    jxaParseTrackNameCore ("Spur".toList ++ (' ' :: ("4".toList ++ (' ' :: ('"' :: ("Mic".toList ++ ['"'])))))) = "Mic".toList ∧
    jxaParseTrackNumberCore ("Spur".toList ++ (' ' :: ("4".toList ++ (' ' :: ('„' :: ("Mic".toList ++ ['“'])))))) = some (4 : Int) := by
  have h := C5_track_label_parsers "Spur".toList "4".toList "Mic".toList 4
    (by decide) (by decide) (by decide) (by decide) (by decide) (by norm_num) (by decide) (by decide)
  exact ⟨h.1, h.2.2.2.1, h.2.2.2.2.2.1, h.2.2.2.2.2.2.1⟩

/-- filterMap over a cons, phrased with an append head. -/
theorem filterMap_cons_eq (f : AXElement → Option String) (e : AXElement) (l : List AXElement) :
    List.filterMap f (e :: l) =
      (match f e with | some b => [b] | none => []) ++ List.filterMap f l := by
  rw [List.filterMap_cons]
  cases f e <;> simp

/-- The Swift plugin scan agrees with the pre-order description of the
claim. -/
theorem findPluginNames_eq_claimed : ∀ es, findPluginNames es = claimedPluginTitles es := by
  intro es
  induction es using axforest_ind with
  | hnil => rfl
  | hcons r t d v cs rest ihcs ihrest =>
    rw [findPluginNames, ihcs, ihrest]
    simp only [claimedPluginTitles, preorderElems]
    rw [filterMap_cons_eq, List.filterMap_append]
    simp only [AXElement.role, AXElement.title]
    split
    next heq => simp_all
    next heq => simp_all

/-- The plugins field of a jxa track record is empty by construction. -/
theorem jxaMkTrack_plugins (idx : Nat) (e : AXElement) : (jxaMkTrack idx e).plugins = [] := by
  cases e with
  | mk r t d v cs => rfl

/-- Every record the JXA walk accumulates keeps an empty plugins list. -/
theorem jxaScanChildren_plugins : ∀ (es : AXForest) (depth : Nat) (acc : List JxaTrack),
    (∀ tr ∈ acc, tr.plugins = ([] : List String)) →
    ∀ tr ∈ jxaScanChildren es depth acc, tr.plugins = ([] : List String) := by
  intro es
  induction es using axforest_ind with
  | hnil => intro depth acc hacc tr htr; exact hacc tr htr
  | hcons r t d v cs rest ihcs ihrest =>
    intro depth acc hacc tr htr
    simp only [jxaScanChildren] at htr
    have hts1 : ∀ tr2 ∈ (if jxaIsTrackElem (AXElement.mk r t d v cs) then
        acc ++ [jxaMkTrack acc.length (AXElement.mk r t d v cs)] else acc),
        tr2.plugins = ([] : List String) := by
      intro tr2 htr2
      split at htr2
      · rcases List.mem_append.mp htr2 with h | h
        · exact hacc tr2 h
        · rcases List.mem_cons.mp h with h | h
          · rw [h]; exact jxaMkTrack_plugins _ _
          · exact absurd h (List.not_mem_nil tr2)
      · exact hacc tr2 htr2
    have hts2 : ∀ tr2 ∈ (if depth + 1 > 12 then
        (if jxaIsTrackElem (AXElement.mk r t d v cs) then
          acc ++ [jxaMkTrack acc.length (AXElement.mk r t d v cs)] else acc)
        else jxaScanChildren cs (depth + 1)
          (if jxaIsTrackElem (AXElement.mk r t d v cs) then
            acc ++ [jxaMkTrack acc.length (AXElement.mk r t d v cs)] else acc)),
        tr2.plugins = ([] : List String) := by
      intro tr2 htr2
      split at htr2
      · exact hts1 tr2 htr2
      · exact ihcs (depth + 1) _ hts1 tr2 htr2
    exact ihrest depth _ hts2 tr htr

/-- C6 amended: the Swift extraction fills plugins with exactly the ordered
titles of every named button in the track subtree whose title is not one
of M, S, R (the pre-order description of the claim), while the JXA
extraction always produces an empty plugins list. -/
theorem C6_plugins_per_backend :
    (∀ es, findPluginNames es = claimedPluginTitles es) ∧
    (∀ (idx : Nat) (desc : List Char) (children : AXForest),
        (mkTrackInfo idx desc children).plugins = claimedPluginTitles children) ∧
    (∀ (es : AXForest) (depth : Nat) (tr : JxaTrack),
        tr ∈ jxaScanChildren es depth [] → tr.plugins = ([] : List String)) := by
  refine ⟨findPluginNames_eq_claimed, ?_, ?_⟩
  · intro idx desc children
    show findPluginNames children = claimedPluginTitles children
    exact findPluginNames_eq_claimed children
  · intro es depth tr htr
    exact jxaScanChildren_plugins es depth [] (by intro tr2 h; exact absurd h (List.not_mem_nil tr2)) tr htr

/-- Counterexample to C6 as stated: on a track whose subtree holds the
named button ChannelEQ, the JXA backend returns plugins [], not the
pre-order button-title list the claim demands for both backends. -/
theorem C6_counterexample :
    (jxaScanChildren c6Forest 0 []).map (fun tr => tr.plugins) = [[]] ∧
    claimedPluginTitles c6TrackChildren = ["ChannelEQ"] ∧
    ([] : List String) ≠ ["ChannelEQ"] :=
  ⟨by decide, by decide, by decide⟩

/-- Witness for C6 at concrete inputs. -/
theorem C6_plugins_per_backend_witness :
    (jxaMkTrack 0 c6TrackElem ∈ jxaScanChildren c6Forest 0 []) ∧
    (jxaMkTrack 0 c6TrackElem).plugins = ([] : List String) :=
  ⟨by decide, C6_plugins_per_backend.2.2 c6Forest 0 (jxaMkTrack 0 c6TrackElem) (by decide)⟩

/-- Boolean fact: when no write is accepted, neither helper branch fires. -/
theorem accepts_false_branches {a b c d : Bool} (h : (a && ((b && c) || d)) = false) :
    ((a && b) && c) = false ∧ (a && d) = false := by
  cases a <;> cases b <;> cases c <;> cases d <;> simp_all

/-- Boolean fact: absence of a writable-role match forces absence of an
accepting match. -/
theorem accepts_false_of_writable_false {a b c d : Bool} (h : (a && (b || d)) = false) :
    (a && ((b && c) || d)) = false := by
  cases a <;> cases b <;> cases c <;> cases d <;> simp_all

/-- Regions without an accepting match are traversed without effect:
findAndSetParameter reports false and leaves the forest unchanged. -/
theorem findAndSet_clean : ∀ (es : AXForest) (p v : String) (depth maxDepth : Nat),
    noAcceptingMatch p v es depth maxDepth = true →
    findAndSetParameter es p v depth maxDepth = (false, es) := by
  intro es
  induction es using axforest_ind with
  | hnil => intro p v depth maxDepth _; rfl
  | hcons r t d vv cs rest ihcs ihrest =>
    intro p v depth maxDepth h
    by_cases hd : depth < maxDepth
    · rw [noAcceptingMatch, if_pos hd] at h
      simp only [Bool.and_eq_true, Bool.not_eq_true'] at h
      obtain ⟨⟨hacc, hcs⟩, hrest⟩ := h
      have hb := accepts_false_branches (by simp only [acceptsWrite] at hacc; exact hacc)
      simp only [findAndSetParameter, if_pos hd, hb.1, hb.2, Bool.false_eq_true, if_false]
      rw [ihcs p v (depth + 1) maxDepth hcs, ihrest p v depth maxDepth hrest]
      simp
    · simp only [findAndSetParameter, if_neg hd]

/-- A forest without writable-labelled elements in bound has no accepting
match for any value. -/
theorem noAccepting_of_noWritable : ∀ (es : AXForest) (p v : String) (depth maxDepth : Nat),
    hasWritableMatch es p depth maxDepth = false →
    noAcceptingMatch p v es depth maxDepth = true := by
  intro es
  induction es using axforest_ind with
  | hnil => intro p v depth maxDepth _; rfl
  | hcons r t d vv cs rest ihcs ihrest =>
    intro p v depth maxDepth h
    by_cases hd : depth < maxDepth
    · rw [hasWritableMatch, if_pos hd] at h
      simp only [Bool.or_eq_false_iff] at h
      obtain ⟨⟨hw, hcs⟩, hrest⟩ := h
      rw [noAcceptingMatch, if_pos hd]
      simp only [Bool.and_eq_true, Bool.not_eq_true']
      exact ⟨⟨by simp only [acceptsWrite]; exact accepts_false_of_writable_false hw,
        ihcs p v (depth + 1) maxDepth hcs⟩, ihrest p v depth maxDepth hrest⟩
    · rw [noAcceptingMatch, if_neg hd]

/-- Without a writable match anywhere in the windows, the window loop
reports failure and mutates nothing. -/
theorem setParamWindows_noMatch : ∀ (windows : AXForest) (p v : String),
    anyWindowHasWritableMatch windows p = false →
    setParamWindows windows p v = (false, windows) := by
  intro windows
  induction windows using axforest_ind with
  | hnil => intro p v _; rfl
  | hcons r t d vv cs rest ihcs ihrest =>
    intro p v h
    rw [anyWindowHasWritableMatch] at h
    simp only [Bool.or_eq_false_iff] at h
    obtain ⟨hcs, hrest⟩ := h
    have hclean := findAndSet_clean cs p v 0 8 (noAccepting_of_noWritable cs p v 0 8 hcs)
    simp only [setParamWindows, hclean, Bool.false_eq_true, if_false]
    rw [ihrest p v hrest]

/-- C2 amended: when no element within the depth bound carries a label
equal (case-insensitively) to the parameter name with a writable role, the
Swift helper mutates nothing and reports ParameterNotFound — but only as a
stderr diagnostic with exit code 0, so the TS bridge resolves successfully
with the empty stdout and the tool call surfaces a success message, not an
error. -/
theorem C2_parameter_not_found (windows : AXForest) (p v : String)
    (h : anyWindowHasWritableMatch windows p = false) :
    swiftSetPluginParameter windows p v = (.notFound p, windows) ∧
    setParamStderrHasNotFound (swiftSetPluginParameter windows p v).1 = true ∧
    tsSetPluginParameter windows p v = .ok "" ∧
    pluginSetParameterTool windows p v =
      { text := "Parameter \"" ++ p ++ "\" set to \"" ++ v ++ "\". ", isError := false } := by
  have hw := setParamWindows_noMatch windows p v h
  have h1 : swiftSetPluginParameter windows p v = (.notFound p, windows) := by
    simp only [swiftSetPluginParameter, hw, Bool.false_eq_true, if_false]
  refine ⟨h1, by rw [h1]; rfl, ?_, ?_⟩
  · simp only [tsSetPluginParameter, h1, setParamStdout]
  · simp only [pluginSetParameterTool, tsSetPluginParameter, h1, setParamStdout]
    simp

/-- Counterexample to C2 as stated: with no writable match present, the
helper takes the not-found path, yet the tool result the caller sees is a
non-error success text — the ParameterNotFound failure is not surfaced. -/
theorem C2_counterexample :
    anyWindowHasWritableMatch c2Windows "Gain" = false ∧
    (swiftSetPluginParameter c2Windows "Gain" "2").1 = .notFound "Gain" ∧
    (pluginSetParameterTool c2Windows "Gain" "2").isError = false ∧
    (pluginSetParameterTool c2Windows "Gain" "2").text = "Parameter \"Gain\" set to \"2\". " :=
  ⟨by decide, by decide, by decide, by decide⟩

/-- Witness for C2 at the concrete window set. -/
theorem C2_parameter_not_found_witness :
    anyWindowHasWritableMatch c2Windows "Gain" = false ∧
    swiftSetPluginParameter c2Windows "Gain" "2" = (.notFound "Gain", c2Windows) :=
  ⟨by decide, (C2_parameter_not_found c2Windows "Gain" "2" (by decide)).1⟩

/-- C3 amended: within the depth bound, the walk writes the first element
in pre-order that accepts the write — label match plus a role the value
converts for (any text field, a slider only when the value parses as a
float) — and stops there, leaving every later element untouched; elements
that do not accept the write, including matching sliders whose value fails
float conversion, are passed over unchanged (the counterexample shows such
a slider being skipped in favour of a later duplicate). -/
theorem C3_first_acceptor_wins :
    (∀ (r t d vv : Option String) (cs rest : AXForest) (p v : String) (depth maxDepth : Nat),
        depth < maxDepth →
        acceptsWrite p v (.mk r t d vv cs) = true →
        findAndSetParameter (.cons (.mk r t d vv cs) rest) p v depth maxDepth =
          (true, .cons (.mk r t d (some v) cs) rest)) ∧
    (∀ (r t d vv : Option String) (cs rest cs2 : AXForest) (p v : String) (depth maxDepth : Nat),
        depth < maxDepth →
        acceptsWrite p v (.mk r t d vv cs) = false →
        findAndSetParameter cs p v (depth + 1) maxDepth = (true, cs2) →
        findAndSetParameter (.cons (.mk r t d vv cs) rest) p v depth maxDepth =
          (true, .cons (.mk r t d vv cs2) rest)) ∧
    (∀ (r t d vv : Option String) (cs rest : AXForest) (p v : String) (depth maxDepth : Nat),
        depth < maxDepth →
        acceptsWrite p v (.mk r t d vv cs) = false →
        noAcceptingMatch p v cs (depth + 1) maxDepth = true →
        findAndSetParameter (.cons (.mk r t d vv cs) rest) p v depth maxDepth =
          ((findAndSetParameter rest p v depth maxDepth).1,
            .cons (.mk r t d vv cs) (findAndSetParameter rest p v depth maxDepth).2)) ∧
    (∀ (es : AXForest) (p v : String) (depth maxDepth : Nat),
        noAcceptingMatch p v es depth maxDepth = true →
        findAndSetParameter es p v depth maxDepth = (false, es)) := by
  refine ⟨?_, ?_, ?_, findAndSet_clean⟩
  · intro r t d vv cs rest p v depth maxDepth hd hacc
    simp only [acceptsWrite, Bool.and_eq_true, Bool.or_eq_true] at hacc
    obtain ⟨hM, hbranch⟩ := hacc
    simp only [findAndSetParameter, if_pos hd]
    rcases hbranch with hSP | hT
    · simp [hM, hSP.1, hSP.2]
    · have hTeq : r.getD "" = "AXTextField" := by simpa using hT
      have hS : (r.getD "" == "AXSlider") = false := by simp [hTeq]
      simp [hM, hT, hS]
  · intro r t d vv cs rest cs2 p v depth maxDepth hd hacc hcs
    have hb := accepts_false_branches (by simp only [acceptsWrite] at hacc; exact hacc)
    simp only [findAndSetParameter, if_pos hd, hb.1, hb.2, Bool.false_eq_true, if_false]
    rw [hcs]
    simp
  · intro r t d vv cs rest p v depth maxDepth hd hacc hclean
    have hb := accepts_false_branches (by simp only [acceptsWrite] at hacc; exact hacc)
    simp only [findAndSetParameter, if_pos hd, hb.1, hb.2, Bool.false_eq_true, if_false]
    rw [findAndSet_clean cs p v (depth + 1) maxDepth hclean]
    simp

/-- Counterexample to C3 as stated: two writable controls labelled Gain,
the slider first in pre-order; with the non-numeric value abc the walk
skips the slider (float conversion fails) and mutates the later text
field, leaving the earlier element untouched — not the behaviour the
claim demands. -/
theorem C3_counterexample :
    findAndSetParameter c3Forest "Gain" "abc" 0 8 =
      (true, .cons c3Slider
        (.cons (.mk (some "AXTextField") none (some "Gain") (some "abc") .nil) .nil)) ∧
    findAndSetParameter c3Forest "Gain" "abc" 0 8 ≠
      (true, .cons (.mk (some "AXSlider") none (some "Gain") (some "abc") .nil)
        (.cons c3TextField .nil)) :=
  ⟨by decide, by decide⟩

/-- Witness for C3 at a concrete accepting head element. -/
theorem C3_first_acceptor_wins_witness :
    (0 < 8 ∧ acceptsWrite "Gain" "0.7" c3TextField = true) ∧
    findAndSetParameter (.cons c3TextField .nil) "Gain" "0.7" 0 8 =
      (true, .cons (.mk (some "AXTextField") none (some "Gain") (some "0.7") .nil) .nil) :=
  ⟨⟨by decide, by decide⟩,
   C3_first_acceptor_wins.1 (some "AXTextField") none (some "Gain") (some "old") .nil .nil
     "Gain" "0.7" 0 8 (by decide) (by decide)⟩

/-- The core projection of an extracted row depends only on the row
description and position, never on the subtree. -/
theorem trackCore_mkTrackInfo (idx : Nat) (desc : List Char) (children : AXForest) :
    trackCore (mkTrackInfo idx desc children) =
      (idx, extractTrackNumberCore desc, (extractTrackNameCore desc).asString) := rfl

/-- The parameter walk never reads elements at or beyond the remaining
depth budget: truncating them leaves the output unchanged. -/
theorem findParameters_trunc : ∀ (es : AXForest) (ps : List PluginParameter) (depth maxDepth k : Nat),
    maxDepth ≤ depth + k →
    findParameters es ps depth maxDepth = findParameters (truncForest k es) ps depth maxDepth := by
  intro es
  induction es using axforest_ind with
  | hnil => intro ps depth maxDepth k hk; cases k <;> rfl
  | hcons r t d v cs rest ihcs ihrest =>
    intro ps depth maxDepth k hk
    cases k with
    | zero =>
      have hd : ¬(depth < maxDepth) := by omega
      simp only [truncForest, findParameters, if_neg hd]
    | succ k2 =>
      by_cases hd : depth < maxDepth
      · simp only [truncForest, findParameters, if_pos hd]
        rw [← ihcs _ (depth + 1) maxDepth k2 (show maxDepth ≤ depth + 1 + k2 by omega)]
        exact ihrest _ depth maxDepth (k2 + 1) (by omega)
      · simp only [truncForest, findParameters, if_neg hd]

/-- The row-selection half of the track walk never reads elements at or
beyond the remaining depth budget: truncating them leaves every row core
(index, number, name) unchanged. -/
theorem collectTrack_core_trunc : ∀ (es : AXForest) (acc acc2 : List TrackInfo) (depth maxDepth k : Nat),
    maxDepth ≤ depth + k →
    acc.map trackCore = acc2.map trackCore →
    (collectTrackElements es acc depth maxDepth).map trackCore =
      (collectTrackElements (truncForest k es) acc2 depth maxDepth).map trackCore := by
  intro es
  induction es using axforest_ind with
  | hnil =>
    intro acc acc2 depth maxDepth k hk hacc
    cases k <;> simpa [collectTrackElements, truncForest] using hacc
  | hcons r t d v cs rest ihcs ihrest =>
    intro acc acc2 depth maxDepth k hk hacc
    cases k with
    | zero =>
      have hd : ¬(depth < maxDepth) := by omega
      simpa [truncForest, collectTrackElements, if_neg hd] using hacc
    | succ k2 =>
      by_cases hd : depth < maxDepth
      · simp only [truncForest, collectTrackElements, if_pos hd]
        apply ihrest _ _ depth maxDepth (k2 + 1) (by omega)
        apply ihcs _ _ (depth + 1) maxDepth k2 (by omega)
        have hlen : acc.length = acc2.length := by
          have hcl := congrArg List.length hacc
          simpa using hcl
        by_cases hcond :
            (r.getD "" == "AXLayoutItem" && isTrackDescriptionCore ((d.getD "").toList)) = true
        · simp only [if_pos hcond, List.map_append, hacc, hlen]
          simp [trackCore, mkTrackInfo]
        · simp only [if_neg hcond]
          exact hacc
      · simpa [truncForest, collectTrackElements, if_neg hd] using hacc

/-- C4 amended: the candidate-selection walks are depth-bounded — the
whole parameter collection, and the per-row core fields (index,
trackNumber, name) of the track collection, depend only on elements
within the bound — but a matched row's state and plugin extraction does
read its subtree below the bound, so the collection output as a whole can
depend on deeper elements (see the counterexample). -/
theorem C4_depth_bounded_walks :
    (∀ (es : AXForest) (ps : List PluginParameter) (m : Nat),
        findParameters es ps 0 m = findParameters (truncForest m es) ps 0 m) ∧
    (∀ (es : AXForest) (acc : List TrackInfo) (m : Nat),
        (collectTrackElements es acc 0 m).map trackCore =
          (collectTrackElements (truncForest m es) acc 0 m).map trackCore) :=
  ⟨fun es ps m => findParameters_trunc es ps 0 m m (by omega),
   fun es acc m => collectTrack_core_trunc es acc acc 0 m m (by omega) rfl⟩

/-- Counterexample to C4 as stated: with bound 1, removing exactly the
elements whose depth exceeds the bound changes the track-collection
output — the plugin scan of the matched row visits a button at depth 2,
so the walk does read elements beyond maxDepth. -/
theorem C4_counterexample :
    collectTrackElements c4Forest [] 0 1 ≠
      collectTrackElements (truncForest 2 c4Forest) [] 0 1 ∧
    (collectTrackElements c4Forest [] 0 1).map (fun tr => tr.plugins) = [["DeepPlugin"]] ∧
    (collectTrackElements (truncForest 2 c4Forest) [] 0 1).map (fun tr => tr.plugins) = [[]] :=
  ⟨by decide, by decide, by decide⟩
